import Mathlib

/-!
Shallow embedding of the perturbed-propagation engine, the flyby solver and
the ground-track geometry solver, together with proofs of the behavioural
claims about them.

The numeric cores (`poliastro.core.flybys`, `poliastro.core.sensors`,
`poliastro.core.perturbations`, `poliastro.core.propagation`,
`poliastro.twobody.propagation.cowell`, `poliastro.twobody.events`) are not
part of the source tree; only their unit-aware shells and tests are.  Those
cores are therefore modelled from the specification, as marked on each
definition.  Definitions are generic over a linear ordered field, with the
transcendental primitives (square root, arcsine, sine, cosine, exponential)
passed in as parameters; the theorems instantiate them with the `Real`
functions.
-/

namespace Poliastro

variable {α : Type} [LinearOrderedField α]

/-! ### Vectors and states -/

/-- A 3-dimensional Cartesian vector, the position/velocity component type of
the 6-dimensional state vector of the spec's data model. -/
structure Vec3 (α : Type) where
  x : α
  y : α
  z : α
deriving DecidableEq, Repr

instance : Add (Vec3 α) :=
  ⟨fun u v => ⟨u.x + v.x, u.y + v.y, u.z + v.z⟩⟩

instance : Sub (Vec3 α) :=
  ⟨fun u v => ⟨u.x - v.x, u.y - v.y, u.z - v.z⟩⟩

instance : Neg (Vec3 α) :=
  ⟨fun u => ⟨-u.x, -u.y, -u.z⟩⟩

instance : Zero (Vec3 α) :=
  ⟨⟨0, 0, 0⟩⟩

instance : SMul α (Vec3 α) :=
  ⟨fun c u => ⟨c * u.x, c * u.y, c * u.z⟩⟩

/-- Euclidean dot product. -/
def dot (u v : Vec3 α) : α :=
  u.x * v.x + u.y * v.y + u.z * v.z

/-- Squared Euclidean norm. -/
def normSq (u : Vec3 α) : α :=
  dot u u

/-- Euclidean norm, through the supplied square-root primitive. -/
def rnorm (sqrtF : α → α) (u : Vec3 α) : α :=
  sqrtF (normSq u)

/-- Cross product. -/
def cross (u v : Vec3 α) : Vec3 α :=
  ⟨u.y * v.z - u.z * v.y, u.z * v.x - u.x * v.z, u.x * v.y - u.y * v.x⟩

/-- Unit vector along `u`. -/
def normalize (sqrtF : α → α) (u : Vec3 α) : Vec3 α :=
  (1 / rnorm sqrtF u) • u

/-- The state vector of the data model: position and velocity in a common
Cartesian frame.  The same structure also carries a state derivative
(velocity slot, acceleration slot). -/
structure OrbitState (α : Type) where
  r : Vec3 α
  v : Vec3 α
deriving DecidableEq, Repr

/-- Error kinds of the error-handling design: validation errors are detected
before numeric work, domain errors abort an in-progress propagation,
convergence errors report integrator failure. -/
inductive PropError where
  | validation
  | domain
  | convergence
deriving DecidableEq, Repr

/-! ### Force model library and equations-of-motion assembler -/

/-- Modelled from the spec: `poliastro.core.propagation.func_twobody` is
absent from the source tree.  The pure two-body right-hand side: velocity
passthrough in the position slot and `-k·r/|r|³` in the velocity slot. -/
def func_twobody (sqrtF : α → α) (t : α) (s : OrbitState α) (k : α) : OrbitState α :=
  let rn := rnorm sqrtF s.r
  ⟨s.v, (-k / rn ^ 3) • s.r⟩

/-- Modelled from the spec: `poliastro.core.perturbations.J2_perturbation` is
absent from the source tree.  Second-zonal-harmonic acceleration,
proportional to `3/2 · J2 · k · R² / r⁵` and scaled per axis by factors
derived from the z-component of position. -/
def J2_perturbation (sqrtF : α → α) (t : α) (s : OrbitState α) (k J2 R : α) : Vec3 α :=
  let rn := rnorm sqrtF s.r
  let factor := 3 / 2 * J2 * k * R ^ 2 / rn ^ 5
  factor • ⟨s.r.x * (5 * s.r.z ^ 2 / rn ^ 2 - 1),
            s.r.y * (5 * s.r.z ^ 2 / rn ^ 2 - 1),
            s.r.z * (5 * s.r.z ^ 2 / rn ^ 2 - 3)⟩

/-- Modelled from the spec:
`poliastro.core.perturbations.atmospheric_drag_exponential` is absent from
the source tree.  Drag acceleration `-1/2 · B · ρ(r) · |v| · v` with
`ρ(r) = ρ₀ · exp(-(|r|-R)/H₀)`. -/
def atmospheric_drag_exponential (sqrtF expF : α → α) (t : α) (s : OrbitState α)
    (k R C_D A_over_m H0 rho0 : α) : Vec3 α :=
  let B := C_D * A_over_m
  let rho := rho0 * expF (-(rnorm sqrtF s.r - R) / H0)
  (-(1 : α) / 2 * B * rho * rnorm sqrtF s.v) • s.v

/-- Modelled from the spec:
`poliastro.core.perturbations.atmospheric_drag_model` is absent from the
source tree.  Same force law as the exponential drag, but the density is
supplied by an external density-model collaborator with a bounded validity
domain; a domain error from the collaborator propagates, it is not replaced
by a zero acceleration. -/
def atmospheric_drag_model (sqrtF : α → α) (t : α) (s : OrbitState α)
    (k R C_D A_over_m : α) (model : α → Except PropError α) : Except PropError (Vec3 α) :=
  let alt := rnorm sqrtF s.r - R
  match model alt with
  | .error e => .error e
  | .ok rho => .ok ((-(1 : α) / 2 * (C_D * A_over_m) * rho * rnorm sqrtF s.v) • s.v)

/-- Modelled from the spec: the equations-of-motion assembler (the `f`
functions built around `func_twobody` in the source tests).  Velocity
passthrough in the position slot, and the two-body acceleration plus the
ordered sum of the perturbation accelerations in the velocity slot. -/
def assembleRHS (sqrtF : α → α) (k : α) (perts : List (α → OrbitState α → Vec3 α))
    (t : α) (s : OrbitState α) : OrbitState α :=
  let kep := func_twobody sqrtF t s k
  ⟨kep.r, kep.v + (perts.map fun p => p t s).foldr (· + ·) 0⟩

/-- Modelled from the spec: assembler for a fallible perturbation (one whose
collaborator may raise a domain error).  The error propagates to the
right-hand side evaluation. -/
def assembleRHSFallible (sqrtF : α → α) (k : α)
    (pertE : α → OrbitState α → Except PropError (Vec3 α))
    (t : α) (s : OrbitState α) : Except PropError (OrbitState α) :=
  let kep := func_twobody sqrtF t s k
  match pertE t s with
  | .error e => .error e
  | .ok a => .ok ⟨kep.r, kep.v + a⟩

/-! ### Event detector -/

/-- An event: a scalar function of time and state whose sign change between
accepted steps indicates a crossing, plus the terminal flag. -/
structure EventSpec (α : Type) where
  g : α → OrbitState α → α
  terminal : Bool

/-- The mutable event record of the data model: triggered flag and last
recorded time. -/
structure EventRecord (α : Type) where
  triggered : Bool
  lastT : α
deriving DecidableEq, Repr

/-- Modelled from the spec: `poliastro.twobody.events.LithobrakeEvent` is
absent from the source tree.  A terminal event whose scalar function is
`|r| - R`, the altitude over the attractor surface. -/
def LithobrakeEvent (sqrtF : α → α) (R : α) : EventSpec α :=
  ⟨fun _ s => rnorm sqrtF s.r - R, true⟩

/-- Modelled from the spec: the bracketed root-find used to locate a crossing
time.  Plain bisection keeping a sign-change bracket, `n` halvings. -/
def bisect (g : α → α) : Nat → α → α → α × α
  | 0, lo, hi => (lo, hi)
  | n + 1, lo, hi =>
    let mid := (lo + hi) / 2
    if g lo * g mid ≤ 0 then bisect g n lo mid else bisect g n mid hi

/-- Modelled from the spec: the scan for the first sign change of the event
function between consecutive accepted integrator steps. -/
def firstCrossing (g : α → α) : List α → Option (α × α)
  | [] => none
  | [_] => none
  | a :: b :: rest => if g a * g b ≤ 0 then some (a, b) else firstCrossing g (b :: rest)

/-! ### Propagator -/

/-- Terminal statuses of the propagator state machine. -/
inductive PropStatus where
  | completed
  | terminatedByEvent
  | failed
deriving DecidableEq, Repr

/-- Result of a propagation: terminal status, trajectory sample set, event
record. -/
structure PropResult (α : Type) where
  status : PropStatus
  samples : List (α × OrbitState α)
  record : EventRecord α
deriving DecidableEq, Repr

/-- Modelled from the spec: `poliastro.twobody.propagation.cowell` is absent
from the source tree.  The numerical integration itself is abstracted by its
dense output `sol` and its list of accepted step times `steps`; the
event-handling and sample-assembly logic is concrete.  The event function is
evaluated at consecutive accepted steps; on the first sign change a bisection
root-find over the dense output locates the crossing time.  A terminal event
truncates the sample set at the crossing: requested output times past the
crossing return the event state repeated.  A non-terminal event records the
crossing and integration continues.  Without a sign change the event record
keeps the final propagation time and stays untriggered. -/
def cowell (sol : α → OrbitState α) (steps : List α) (tofs : List α)
    (ev : EventSpec α) (n : Nat) : PropResult α :=
  let gt := fun t => ev.g t (sol t)
  match firstCrossing gt steps with
  | none =>
    { status := .completed
      samples := tofs.map fun t => (t, sol t)
      record := { triggered := false, lastT := tofs.getLastD 0 } }
  | some (a, b) =>
    let te := (bisect gt n a b).2
    if ev.terminal then
      { status := .terminatedByEvent
        samples := tofs.map fun t => if t ≤ te then (t, sol t) else (te, sol te)
        record := { triggered := true, lastT := te } }
    else
      { status := .completed
        samples := tofs.map fun t => (t, sol t)
        record := { triggered := true, lastT := te } }

/-- Result of a propagation whose right-hand side may raise a domain error:
status, the trajectory collected so far, and the incomplete marker. -/
structure FallibleResult (α : Type) where
  status : PropStatus
  samples : List (α × OrbitState α)
  incomplete : Bool
deriving DecidableEq, Repr

/-- Modelled from the spec: propagation driving a fallible right-hand side.
The right-hand side is evaluated along the dense output at each requested
output time, in order; a domain error aborts the propagation, which returns
a failure carrying the partial trajectory collected so far, explicitly
marked incomplete. -/
def propagateFallible (rhsE : α → OrbitState α → Except PropError (OrbitState α))
    (sol : α → OrbitState α) : List α → FallibleResult α
  | [] => ⟨.completed, [], false⟩
  | t :: ts =>
    match rhsE t (sol t) with
    | .error _ => ⟨.failed, [], true⟩
    | .ok _ =>
      let rest := propagateFallible rhsE sol ts
      ⟨rest.status, (t, sol t) :: rest.samples, rest.incomplete⟩

/-! ### Flyby solver -/

/-- Rodrigues rotation of `u` by `angle` about the axis `ax`. -/
def rodrigues (cosF sinF : α → α) (ax : Vec3 α) (angle : α) (u : Vec3 α) : Vec3 α :=
  cosF angle • u + sinF angle • cross ax u + ((1 - cosF angle) * dot ax u) • ax

/-- Modelled from the spec: `poliastro.core.flybys.compute_flyby` is absent
from the source tree.  Rejects a non-positive periapsis before any numeric
work.  Otherwise computes the hyperbolic excess velocity `v_inf_1`, the
eccentricity `e = 1 + r_p·v_inf²/k` of the entry hyperbola, the turn angle
`δ = 2·asin(1/e)`, builds the B-plane frame (S along the excess velocity, T
along the fundamental plane, R completing the triad), and rotates the
incoming relative velocity by the turn angle about the axis determined by
the aim angle, returning the outbound velocity in the attractor frame and
the turn angle. -/
def compute_flyby_fast (sqrtF asinF cosF sinF : α → α)
    (v_spacecraft v_body : Vec3 α) (k r_p theta : α) :
    Except PropError (Vec3 α × α) :=
  if r_p ≤ 0 then .error .validation
  else
    let v_inf_1 := v_spacecraft - v_body
    let v_inf := rnorm sqrtF v_inf_1
    let ecc := 1 + r_p * v_inf ^ 2 / k
    let delta := 2 * asinF (1 / ecc)
    let S_vec := normalize sqrtF v_inf_1
    let c_vec : Vec3 α := ⟨0, 0, 1⟩
    let T_vec := normalize sqrtF (cross S_vec c_vec)
    let R_vec := cross S_vec T_vec
    let B_unit := cosF theta • T_vec + sinF theta • R_vec
    let rot_axis := cross B_unit S_vec
    .ok (rodrigues cosF sinF rot_axis delta v_inf_1 + v_body, delta)

/-! ### Unit-aware shell for the flyby solver

The unit layer is an external collaborator; it is modelled minimally here: a
unit is its scale factor relative to the base (radian-and-base-length)
system, and a quantity is a raw value tagged with a unit. -/

/-- A scalar physical quantity: raw value plus the scale of its unit. -/
structure Quantity (α : Type) where
  value : α
  unit : α
deriving DecidableEq, Repr

/-- Unit conversion of a scalar quantity. -/
def Quantity.to (q : Quantity α) (u : α) : Quantity α :=
  ⟨q.value * q.unit / u, u⟩

/-- A vector physical quantity: raw vector plus the scale of its unit. -/
structure VecQuantity (α : Type) where
  value : Vec3 α
  unit : α
deriving DecidableEq, Repr

/-- Unit conversion of a vector quantity. -/
def VecQuantity.to (q : VecQuantity α) (u : α) : VecQuantity α :=
  ⟨(q.unit / u) • q.value, u⟩

/-- The unit-aware shell `poliastro.threebody.flybys.compute_flyby`, from the
source: converts the inputs to au/s, au³/s², au and rad, calls the numeric
core on the raw values, and tags the outputs as au/s and rad.  The unit
scales `au`, `sec`, `deg` are parameters of the model; rad is the base, of
scale 1. -/
def compute_flyby (sqrtF asinF cosF sinF : α → α) (au sec deg : α)
    (v_spacecraft v_body : VecQuantity α) (k r_p theta : Quantity α) :
    Except PropError (VecQuantity α × Quantity α) :=
  let vs := (v_spacecraft.to (au / sec)).value
  let vb := (v_body.to (au / sec)).value
  let kv := (k.to (au ^ 3 / sec ^ 2)).value
  let rp := (r_p.to au).value
  let th := (theta.to 1).value
  match compute_flyby_fast sqrtF asinF cosF sinF vs vb kv rp th with
  | .error e => .error e
  | .ok (vout, delta) => .ok (⟨vout, au / sec⟩, ⟨delta, 1⟩)

/-- The shell called with `theta` omitted: the source gives `theta` the
default value of 0 degrees. -/
def compute_flyby_default (sqrtF asinF cosF sinF : α → α) (au sec deg : α)
    (v_spacecraft v_body : VecQuantity α) (k r_p : Quantity α) :
    Except PropError (VecQuantity α × Quantity α) :=
  compute_flyby sqrtF asinF cosF sinF au sec deg v_spacecraft v_body k r_p ⟨0, deg⟩

/-- Spec-side composition for the refinement claim about the shell: the pair
produced by the numeric core applied to the inputs converted to canonical
units, with the outputs tagged as au/s and rad.  Stated from the spec's
words, to be compared with the shell translated from the source. -/
def compute_flyby_shell_spec (sqrtF asinF cosF sinF : α → α) (au sec deg : α)
    (v_spacecraft v_body : VecQuantity α) (k r_p theta : Quantity α) :
    Except PropError (VecQuantity α × Quantity α) :=
  Except.map (fun p => (⟨p.1, au / sec⟩, ⟨p.2, 1⟩))
    (compute_flyby_fast sqrtF asinF cosF sinF
      ((v_spacecraft.to (au / sec)).value) ((v_body.to (au / sec)).value)
      ((k.to (au ^ 3 / sec ^ 2)).value) ((r_p.to au).value) ((theta.to 1).value))

/-! ### Ground-track geometry solver -/

/-- Modelled from the spec: `poliastro.core.sensors.min_and_max_ground_range`
is absent from the source tree.  Off-nadir angles at the swath edges are
`η_center ± η_fov/2`; each is converted to the ground-range central angle
via the spherical law of sines, `λ(η) = asin(((R+h)/R)·sin η) - η`. -/
def min_and_max_ground_range_fast (asinF sinF : α → α)
    (h eta_fov eta_center R : α) : α × α :=
  let r_sat := R + h
  let eta_max := eta_center + eta_fov / 2
  let eta_min := eta_center - eta_fov / 2
  let lambda_max := asinF (r_sat / R * sinF eta_max) - eta_max
  let lambda_min := asinF (r_sat / R * sinF eta_min) - eta_min
  (lambda_min, lambda_max)

/-- Modelled from the spec:
`poliastro.core.sensors.ground_range_diff_at_azimuth` is absent from the
source tree.  Rejects an azimuth outside the open interval (0, π) with a
validation error, because the formulas only resolve the acute/short-path
solution.  Otherwise computes the signed ground-range offset of the swath
edge from the boresight center, and the target latitude/longitude from the
nadir point by the spherical law of cosines for sides at azimuth `beta`. -/
def ground_range_diff_at_azimuth_fast (asinF acosF sinF cosF : α → α) (piV : α)
    (h eta_fov eta_center beta phi_nadir lambda_nadir R : α) :
    Except PropError (α × α × α) :=
  if beta ≤ 0 ∨ piV ≤ beta then .error .validation
  else
    let r_sat := R + h
    let eta_edge := eta_center + eta_fov / 2
    let lambda_center := asinF (r_sat / R * sinF eta_center) - eta_center
    let lambda_edge := asinF (r_sat / R * sinF eta_edge) - eta_edge
    let delta_lambda := lambda_edge - lambda_center
    let phi_tgt := asinF (sinF phi_nadir * cosF lambda_edge +
      cosF phi_nadir * sinF lambda_edge * cosF beta)
    let lambda_tgt := lambda_nadir +
      acosF ((cosF lambda_edge - sinF phi_nadir * sinF phi_tgt) /
        (cosF phi_nadir * cosF phi_tgt))
    .ok (delta_lambda, phi_tgt, lambda_tgt)

/-! ### Concrete witness data -/

/-- A dense trajectory over ℝ whose radius decreases linearly: at time `t`
the position is `(1 - t, 0, 0)` and the velocity is zero. -/
def wSolR : ℝ → OrbitState ℝ :=
  fun t => ⟨⟨1 - t, 0, 0⟩, ⟨0, 0, 0⟩⟩

/-- A dense trajectory over ℚ moving along the x axis at unit speed. -/
def wSolQ : ℚ → OrbitState ℚ :=
  fun t => ⟨⟨t, 0, 0⟩, ⟨1, 0, 0⟩⟩

/-- A dense trajectory over ℚ whose squared radius decreases: position
`(1 - t, 0, 0)`, velocity zero. -/
def wSolQdecay : ℚ → OrbitState ℚ :=
  fun t => ⟨⟨1 - t, 0, 0⟩, ⟨0, 0, 0⟩⟩

/-- A density model over ℚ valid only at nonnegative altitudes: a domain
error below zero, density zero above. -/
def wDensityModel : ℚ → Except PropError ℚ :=
  fun alt => if alt < 0 then .error .domain else .ok 0

/-! ### Helper lemmas: vectors -/

theorem Vec3.add_def (u v : Vec3 α) : u + v = ⟨u.x + v.x, u.y + v.y, u.z + v.z⟩ :=
  rfl

theorem Vec3.sub_def (u v : Vec3 α) : u - v = ⟨u.x - v.x, u.y - v.y, u.z - v.z⟩ :=
  rfl

theorem Vec3.smul_def (c : α) (u : Vec3 α) : c • u = ⟨c * u.x, c * u.y, c * u.z⟩ :=
  rfl

theorem Vec3.zero_def : (0 : Vec3 α) = ⟨0, 0, 0⟩ :=
  rfl

theorem Vec3.add_zero (u : Vec3 α) : u + 0 = u := by
  cases u
  simp [Vec3.add_def, Vec3.zero_def]

theorem Vec3.one_smul (u : Vec3 α) : (1 : α) • u = u := by
  cases u
  simp [Vec3.smul_def]

theorem Vec3.zero_smul (u : Vec3 α) : (0 : α) • u = 0 := by
  cases u
  simp [Vec3.smul_def, Vec3.zero_def]

theorem vec_foldr_add_zero (l : List (Vec3 α)) (h : ∀ v ∈ l, v = 0) :
    l.foldr (· + ·) 0 = 0 := by
  induction l with
  | nil => rfl
  | cons v vs ih =>
    simp only [List.foldr_cons]
    rw [h v (by simp), ih fun w hw => h w (by simp [hw]), Vec3.add_zero]

/-! ### Helper lemmas: bisection root-find and crossing scan -/

theorem abs_le_abs_sub_of_mul_nonpos {a b : α} (h : a * b ≤ 0) : |b| ≤ |a - b| := by
  rcases mul_nonpos_iff.mp h with ⟨ha, hb⟩ | ⟨ha, hb⟩
  · rw [abs_of_nonpos hb, abs_of_nonneg (by linarith : (0 : α) ≤ a - b)]
    linarith
  · rw [abs_of_nonneg hb, abs_of_nonpos (by linarith : a - b ≤ 0)]
    linarith

theorem bisect_spec (g : α → α) (n : Nat) :
    ∀ lo hi : α, lo ≤ hi → g lo * g hi ≤ 0 →
      lo ≤ (bisect g n lo hi).1 ∧ (bisect g n lo hi).1 ≤ (bisect g n lo hi).2 ∧
      (bisect g n lo hi).2 ≤ hi ∧
      (bisect g n lo hi).2 - (bisect g n lo hi).1 = (hi - lo) / 2 ^ n ∧
      g (bisect g n lo hi).1 * g (bisect g n lo hi).2 ≤ 0 := by
  induction n with
  | zero =>
    intro lo hi hle hsign
    simpa [bisect] using ⟨hle, hsign⟩
  | succ n ih =>
    intro lo hi hle hsign
    have hmlo : lo ≤ (lo + hi) / 2 := by linarith
    have hmhi : (lo + hi) / 2 ≤ hi := by linarith
    have hw : (lo + hi) / 2 - lo = (hi - lo) / 2 := by ring
    have hw2 : hi - (lo + hi) / 2 = (hi - lo) / 2 := by ring
    by_cases hc : g lo * g ((lo + hi) / 2) ≤ 0
    · have hb : bisect g (n + 1) lo hi = bisect g n lo ((lo + hi) / 2) := by
        simp [bisect, hc]
      obtain ⟨i1, i2, i3, i4, i5⟩ := ih lo ((lo + hi) / 2) hmlo hc
      rw [hb]
      refine ⟨i1, i2, le_trans i3 hmhi, ?_, i5⟩
      rw [i4, hw, div_div, pow_succ, mul_comm]
    · have hpos : 0 < g lo * g ((lo + hi) / 2) := lt_of_not_le hc
      have hsign2 : g ((lo + hi) / 2) * g hi ≤ 0 := by
        by_contra hcc
        have hcc' : 0 < g ((lo + hi) / 2) * g hi := lt_of_not_le hcc
        nlinarith [mul_pos hpos hcc', sq_nonneg (g ((lo + hi) / 2))]
      have hb : bisect g (n + 1) lo hi = bisect g n ((lo + hi) / 2) hi := by
        simp [bisect, hc]
      obtain ⟨i1, i2, i3, i4, i5⟩ := ih ((lo + hi) / 2) hi hmhi hsign2
      rw [hb]
      refine ⟨le_trans hmlo i1, i2, i3, ?_, i5⟩
      rw [i4, hw2, div_div, pow_succ, mul_comm]

theorem firstCrossing_sign (g : α → α) :
    ∀ (ts : List α) (a b : α), firstCrossing g ts = some (a, b) → g a * g b ≤ 0
  | [], a, b => by simp [firstCrossing]
  | [x], a, b => by simp [firstCrossing]
  | x :: y :: rest, a, b => by
    by_cases hc : g x * g y ≤ 0
    · intro h
      simp only [firstCrossing, if_pos hc, Option.some.injEq, Prod.mk.injEq] at h
      rw [← h.1, ← h.2]
      exact hc
    · intro h
      simp only [firstCrossing, if_neg hc] at h
      exact firstCrossing_sign g (y :: rest) a b h

theorem firstCrossing_of_chain (g : α → α) :
    ∀ ts : List α, List.Chain' (fun x y => 0 < g x * g y) ts → firstCrossing g ts = none
  | [], _ => rfl
  | [_], _ => rfl
  | x :: y :: rest, h => by
    have h1 := (List.chain'_cons.mp h).1
    have h2 := (List.chain'_cons.mp h).2
    simp only [firstCrossing, if_neg (not_le.mpr h1)]
    exact firstCrossing_of_chain g (y :: rest) h2

/-! ### Helper lemmas: lists -/

theorem snd_eq_of_mem_zip_map {β γ : Type} (f : β → γ) :
    ∀ (l : List β) (p : β × γ), p ∈ l.zip (l.map f) → p.2 = f p.1 := by
  intro l
  induction l with
  | nil => intro p hp; simp at hp
  | cons x xs ih =>
    intro p hp
    simp only [List.map_cons, List.zip_cons_cons, List.mem_cons] at hp
    rcases hp with h | h
    · rw [h]
    · exact ih p h

theorem getLastD_eq_getLast_of_ne_nil {β : Type} :
    ∀ (l : List β) (h : l ≠ []) (d : β), l.getLastD d = l.getLast h
  | [], h, _ => absurd rfl h
  | [x], _, _ => rfl
  | x :: y :: rest, _, d =>
    getLastD_eq_getLast_of_ne_nil (y :: rest) (List.cons_ne_nil y rest) d

/-! ### Helper lemmas: monotonicity of the ground-range map

The ground-range central angle at off-nadir angle `η` is
`arcsin (c · sin η) - η` with `c = (R + h)/R ≥ 1`.  On the domain where the
arcsine argument stays in `[-1, 1]` this map is monotone in `η`, which is
the analytic heart of the field-of-view monotonicity claim. -/

theorem arcsin_stretch_mono_nonneg {c a b : ℝ} (ha : 0 ≤ a) (hab : a ≤ b)
    (hb : b ≤ Real.pi / 2) (hc : 1 ≤ c) (hcb : c * Real.sin b ≤ 1) :
    Real.arcsin (c * Real.sin a) - a ≤ Real.arcsin (c * Real.sin b) - b := by
  have hpi := Real.pi_pos
  have hc0 : (0 : ℝ) < c := lt_of_lt_of_le one_pos hc
  have hsa0 : 0 ≤ Real.sin a :=
    Real.sin_nonneg_of_nonneg_of_le_pi ha (by linarith)
  have hsb0 : 0 ≤ Real.sin b :=
    Real.sin_nonneg_of_nonneg_of_le_pi (le_trans ha hab) (by linarith)
  have hsab : Real.sin a ≤ Real.sin b :=
    Real.sin_le_sin_of_le_of_le_pi_div_two (by linarith) hb hab
  have hsa_le : c * Real.sin a ≤ c * Real.sin b :=
    mul_le_mul_of_nonneg_left hsab hc0.le
  have h1a : -1 ≤ c * Real.sin a := le_trans (by norm_num) (mul_nonneg hc0.le hsa0)
  have h1b : -1 ≤ c * Real.sin b := le_trans (by norm_num) (mul_nonneg hc0.le hsb0)
  have hsin_pa : Real.sin (Real.arcsin (c * Real.sin a)) = c * Real.sin a :=
    Real.sin_arcsin h1a (le_trans hsa_le hcb)
  have hsin_pb : Real.sin (Real.arcsin (c * Real.sin b)) = c * Real.sin b :=
    Real.sin_arcsin h1b hcb
  have hpa0 : 0 ≤ Real.arcsin (c * Real.sin a) :=
    Real.arcsin_nonneg.mpr (mul_nonneg hc0.le hsa0)
  have hpab : Real.arcsin (c * Real.sin a) ≤ Real.arcsin (c * Real.sin b) :=
    Real.monotone_arcsin hsa_le
  have hpb2 : Real.arcsin (c * Real.sin b) ≤ Real.pi / 2 :=
    Real.arcsin_le_pi_div_two _
  have hapa : a ≤ Real.arcsin (c * Real.sin a) := by
    have h1 : Real.sin a ≤ c * Real.sin a := by nlinarith
    calc a = Real.arcsin (Real.sin a) := (Real.arcsin_sin (by linarith) (by linarith)).symm
    _ ≤ Real.arcsin (c * Real.sin a) := Real.monotone_arcsin h1
  have hbpb : b ≤ Real.arcsin (c * Real.sin b) := by
    have h1 : Real.sin b ≤ c * Real.sin b := by nlinarith
    calc b = Real.arcsin (Real.sin b) := (Real.arcsin_sin (by linarith) hb).symm
    _ ≤ Real.arcsin (c * Real.sin b) := Real.monotone_arcsin h1
  rcases eq_or_lt_of_le hab with heq | hlt
  · rw [heq]
  set pa := Real.arcsin (c * Real.sin a) with hpa_def
  set pb := Real.arcsin (c * Real.sin b) with hpb_def
  have hkey : 2 * Real.sin ((pb - pa) / 2) * Real.cos ((pb + pa) / 2) =
      c * (2 * Real.sin ((b - a) / 2) * Real.cos ((b + a) / 2)) := by
    rw [← Real.sin_sub_sin, ← Real.sin_sub_sin, hsin_pa, hsin_pb]
    ring
  have hsd_phi : 0 ≤ Real.sin ((pb - pa) / 2) :=
    Real.sin_nonneg_of_nonneg_of_le_pi (by linarith) (by linarith)
  have hsd_eta : 0 ≤ Real.sin ((b - a) / 2) :=
    Real.sin_nonneg_of_nonneg_of_le_pi (by linarith) (by linarith)
  have hcos_le : Real.cos ((pb + pa) / 2) ≤ Real.cos ((b + a) / 2) :=
    Real.cos_le_cos_of_nonneg_of_le_pi (by linarith) (by linarith) (by linarith)
  have hcos_pos : 0 < Real.cos ((b + a) / 2) :=
    Real.cos_pos_of_mem_Ioo ⟨by linarith, by linarith⟩
  have hcos_phi_nonneg : 0 ≤ Real.cos ((pb + pa) / 2) :=
    Real.cos_nonneg_of_mem_Icc ⟨by linarith, by linarith⟩
  have hstep : Real.sin ((b - a) / 2) * Real.cos ((b + a) / 2) ≤
      Real.sin ((pb - pa) / 2) * Real.cos ((b + a) / 2) := by
    have h1 : Real.sin ((pb - pa) / 2) * Real.cos ((pb + pa) / 2) ≤
        Real.sin ((pb - pa) / 2) * Real.cos ((b + a) / 2) :=
      mul_le_mul_of_nonneg_left hcos_le hsd_phi
    have h2 : 0 ≤ (c - 1) * (Real.sin ((b - a) / 2) * Real.cos ((b + a) / 2)) :=
      mul_nonneg (sub_nonneg.mpr hc) (mul_nonneg hsd_eta hcos_pos.le)
    nlinarith [hkey, h1, h2]
  have hsin_le : Real.sin ((b - a) / 2) ≤ Real.sin ((pb - pa) / 2) :=
    le_of_mul_le_mul_right hstep hcos_pos
  have hhalf : (b - a) / 2 ≤ (pb - pa) / 2 := by
    by_contra hno
    have hno' : (pb - pa) / 2 < (b - a) / 2 := lt_of_not_le hno
    have := Real.strictMonoOn_sin
      (Set.mem_Icc.mpr ⟨by linarith, by linarith⟩)
      (Set.mem_Icc.mpr ⟨by linarith, by linarith⟩) hno'
    linarith
  linarith

theorem arcsin_stretch_mono_nonpos {c a b : ℝ} (ha : -(Real.pi / 2) ≤ a) (hab : a ≤ b)
    (hb : b ≤ 0) (hc : 1 ≤ c) (hca : -1 ≤ c * Real.sin a) :
    Real.arcsin (c * Real.sin a) - a ≤ Real.arcsin (c * Real.sin b) - b := by
  have hcb' : c * Real.sin (-a) ≤ 1 := by
    rw [Real.sin_neg, mul_neg]
    linarith
  have h := @arcsin_stretch_mono_nonneg c (-b) (-a) (by linarith) (by linarith)
    (by linarith) hc hcb'
  rw [Real.sin_neg, Real.sin_neg, mul_neg, mul_neg, Real.arcsin_neg, Real.arcsin_neg] at h
  linarith

theorem arcsin_stretch_mono {c a b : ℝ} (ha : -(Real.pi / 2) ≤ a) (hab : a ≤ b)
    (hb : b ≤ Real.pi / 2) (hc : 1 ≤ c) (hcb : c * Real.sin b ≤ 1)
    (hca : -1 ≤ c * Real.sin a) :
    Real.arcsin (c * Real.sin a) - a ≤ Real.arcsin (c * Real.sin b) - b := by
  rcases le_or_lt 0 a with ha0 | ha0
  · exact arcsin_stretch_mono_nonneg ha0 hab hb hc hcb
  rcases le_or_lt b 0 with hb0 | hb0
  · exact arcsin_stretch_mono_nonpos ha hab hb0 hc hca
  have hmid : Real.arcsin (c * Real.sin 0) - 0 = 0 := by
    simp
  have hleft : Real.arcsin (c * Real.sin a) - a ≤ Real.arcsin (c * Real.sin 0) - 0 :=
    arcsin_stretch_mono_nonpos ha ha0.le le_rfl hc hca
  have hright : Real.arcsin (c * Real.sin 0) - 0 ≤ Real.arcsin (c * Real.sin b) - b :=
    arcsin_stretch_mono_nonneg le_rfl hb0.le hb hc hcb
  linarith

/-! ### Claim theorems -/

/-- Claim C2: for a flyby with aim angle `theta = 0` and periapsis radius
`r_p > 0`, the returned turn angle is `δ = 2·asin(1/e)` with
`e = 1 + r_p·v_inf²/k` where `v_inf` is the norm of the incoming relative
velocity, and the returned outbound velocity is the incoming relative
velocity rotated by `δ` (about the axis the zero aim angle determines)
added back to the body velocity. -/
theorem c2_flyby_formulas (v_spacecraft v_body : Vec3 ℝ) (k r_p : ℝ) (hrp : 0 < r_p) :
    compute_flyby_fast Real.sqrt Real.arcsin Real.cos Real.sin v_spacecraft v_body k r_p 0 =
      Except.ok
        (rodrigues Real.cos Real.sin
            (cross
              (normalize Real.sqrt
                (cross (normalize Real.sqrt (v_spacecraft - v_body)) ⟨0, 0, 1⟩))
              (normalize Real.sqrt (v_spacecraft - v_body)))
            (2 * Real.arcsin (1 /
              (1 + r_p * rnorm Real.sqrt (v_spacecraft - v_body) ^ 2 / k)))
            (v_spacecraft - v_body)
          + v_body,
         2 * Real.arcsin (1 /
           (1 + r_p * rnorm Real.sqrt (v_spacecraft - v_body) ^ 2 / k))) := by
  rw [compute_flyby_fast, if_neg (not_le.mpr hrp)]
  simp only [Real.cos_zero, Real.sin_zero, Vec3.one_smul, Vec3.zero_smul, Vec3.add_zero]

/-- Witness for C2 at a concrete input. -/
theorem c2_flyby_formulas_witness :
    (0 : ℝ) < 1 ∧
    compute_flyby_fast Real.sqrt Real.arcsin Real.cos Real.sin
        (⟨1, 0, 0⟩ : Vec3 ℝ) (⟨0, 0, 0⟩ : Vec3 ℝ) 1 1 0 =
      Except.ok
        (rodrigues Real.cos Real.sin
            (cross
              (normalize Real.sqrt
                (cross (normalize Real.sqrt ((⟨1, 0, 0⟩ : Vec3 ℝ) - ⟨0, 0, 0⟩)) ⟨0, 0, 1⟩))
              (normalize Real.sqrt ((⟨1, 0, 0⟩ : Vec3 ℝ) - ⟨0, 0, 0⟩)))
            (2 * Real.arcsin (1 /
              (1 + 1 * rnorm Real.sqrt ((⟨1, 0, 0⟩ : Vec3 ℝ) - ⟨0, 0, 0⟩) ^ 2 / 1)))
            ((⟨1, 0, 0⟩ : Vec3 ℝ) - ⟨0, 0, 0⟩)
          + ⟨0, 0, 0⟩,
         2 * Real.arcsin (1 /
           (1 + 1 * rnorm Real.sqrt ((⟨1, 0, 0⟩ : Vec3 ℝ) - ⟨0, 0, 0⟩) ^ 2 / 1))) :=
  ⟨one_pos, c2_flyby_formulas ⟨1, 0, 0⟩ ⟨0, 0, 0⟩ 1 1 one_pos⟩

/-- Claim C5: the flyby computation rejects any periapsis radius
`r_p ≤ 0` with a validation error, before any numeric work. -/
theorem c5_flyby_periapsis_validation (sqrtF asinF cosF sinF : α → α)
    (v_spacecraft v_body : Vec3 α) (k r_p theta : α) (hrp : r_p ≤ 0) :
    compute_flyby_fast sqrtF asinF cosF sinF v_spacecraft v_body k r_p theta =
      Except.error PropError.validation := by
  rw [compute_flyby_fast, if_pos hrp]

/-- Witness for C5 at a concrete input. -/
theorem c5_flyby_periapsis_validation_witness :
    (0 : ℚ) ≤ 0 ∧
    compute_flyby_fast id id id id (⟨1, 0, 0⟩ : Vec3 ℚ) ⟨0, 1, 0⟩ 1 0 0 =
      Except.error PropError.validation :=
  ⟨le_refl 0, c5_flyby_periapsis_validation id id id id ⟨1, 0, 0⟩ ⟨0, 1, 0⟩ 1 0 0 (le_refl 0)⟩

/-- Claim C6: the assembled right-hand side with every perturbation
evaluating to zero equals the pure two-body right-hand side: velocity
passthrough in the position slot and `-k·r/|r|³` plus zero in the velocity
slot. -/
theorem c6_zero_perturbation_rhs (sqrtF : α → α) (k t : α) (s : OrbitState α)
    (perts : List (α → OrbitState α → Vec3 α)) (hz : ∀ p ∈ perts, p t s = 0) :
    assembleRHS sqrtF k perts t s = func_twobody sqrtF t s k := by
  have hsum : ((perts.map fun p => p t s).foldr (· + ·) (0 : Vec3 α)) = 0 := by
    apply vec_foldr_add_zero
    intro v hv
    rcases List.mem_map.mp hv with ⟨p, hp, hpv⟩
    rw [← hpv]
    exact hz p hp
  rw [assembleRHS, hsum, Vec3.add_zero]

/-- Witness for C6: a J2 perturbation with the J2 coefficient set to zero
contributes a zero acceleration, and the assembled right-hand side then
equals the two-body right-hand side. -/
theorem c6_zero_perturbation_rhs_witness :
    (∀ p ∈ [fun t s => J2_perturbation (α := ℚ) id t s 1 0 1],
      p 0 ⟨⟨1, 0, 0⟩, ⟨0, 1, 0⟩⟩ = 0) ∧
    assembleRHS id 1 [fun t s => J2_perturbation (α := ℚ) id t s 1 0 1] 0
        ⟨⟨1, 0, 0⟩, ⟨0, 1, 0⟩⟩ =
      func_twobody id 0 ⟨⟨1, 0, 0⟩, ⟨0, 1, 0⟩⟩ 1 := by
  have hz : ∀ p ∈ [fun t s => J2_perturbation (α := ℚ) id t s 1 0 1],
      p 0 ⟨⟨1, 0, 0⟩, ⟨0, 1, 0⟩⟩ = 0 := by
    intro p hp
    rcases List.mem_singleton.mp hp with rfl
    norm_num [J2_perturbation, Vec3.smul_def]
    rfl
  exact ⟨hz, c6_zero_perturbation_rhs id 1 0 ⟨⟨1, 0, 0⟩, ⟨0, 1, 0⟩⟩ _ hz⟩

/-- Claim C10: the unit-aware shell returns exactly the pair produced by the
numeric core applied to the inputs converted to canonical units, with the
outputs tagged as au/s and rad, and calling the shell with `theta` omitted
is identical to passing an angle of 0 degrees. -/
theorem c10_flyby_shell_refines (sqrtF asinF cosF sinF : α → α) (au sec deg : α)
    (v_spacecraft v_body : VecQuantity α) (k r_p theta : Quantity α) :
    compute_flyby sqrtF asinF cosF sinF au sec deg v_spacecraft v_body k r_p theta =
      compute_flyby_shell_spec sqrtF asinF cosF sinF au sec deg v_spacecraft v_body
        k r_p theta ∧
    compute_flyby_default sqrtF asinF cosF sinF au sec deg v_spacecraft v_body k r_p =
      compute_flyby sqrtF asinF cosF sinF au sec deg v_spacecraft v_body k r_p ⟨0, deg⟩ := by
  constructor
  · rw [compute_flyby, compute_flyby_shell_spec]
    rcases compute_flyby_fast sqrtF asinF cosF sinF ((v_spacecraft.to (au / sec)).value)
        ((v_body.to (au / sec)).value) ((k.to (au ^ 3 / sec ^ 2)).value)
        ((r_p.to au).value) ((theta.to 1).value) with e | p
    · rfl
    · rfl
  · rfl

/-- Claim C4: the ground-range-difference-at-azimuth solver rejects every
azimuth `beta ≤ 0` or `beta ≥ π` with a validation error, and returns a
result without error for every azimuth strictly between 0 and π. -/
theorem c4_azimuth_validation (h eta_fov eta_center phi_nadir lambda_nadir R beta : ℝ) :
    ((beta ≤ 0 ∨ Real.pi ≤ beta) →
      ground_range_diff_at_azimuth_fast Real.arcsin Real.arccos Real.sin Real.cos Real.pi
          h eta_fov eta_center beta phi_nadir lambda_nadir R =
        Except.error PropError.validation) ∧
    (0 < beta → beta < Real.pi →
      ∃ out, ground_range_diff_at_azimuth_fast Real.arcsin Real.arccos Real.sin Real.cos
          Real.pi h eta_fov eta_center beta phi_nadir lambda_nadir R =
        Except.ok out) := by
  constructor
  · intro hrej
    rw [ground_range_diff_at_azimuth_fast, if_pos hrej]
  · intro h1 h2
    rw [ground_range_diff_at_azimuth_fast,
      if_neg (by push_neg; exact ⟨h1, h2⟩)]
    exact ⟨_, rfl⟩

/-- Witness for C4: azimuth 0 and azimuth π are rejected, azimuth π/2 is
accepted. -/
theorem c4_azimuth_validation_witness :
    (((0 : ℝ) ≤ 0 ∨ Real.pi ≤ 0) →
      ground_range_diff_at_azimuth_fast Real.arcsin Real.arccos Real.sin Real.cos Real.pi
          1 1 0 0 0 0 1 = Except.error PropError.validation) ∧
    ground_range_diff_at_azimuth_fast Real.arcsin Real.arccos Real.sin Real.cos Real.pi
        1 1 0 0 0 0 1 = Except.error PropError.validation ∧
    ground_range_diff_at_azimuth_fast Real.arcsin Real.arccos Real.sin Real.cos Real.pi
        1 1 0 Real.pi 0 0 1 = Except.error PropError.validation ∧
    (0 < Real.pi / 2 ∧ Real.pi / 2 < Real.pi) ∧
    ∃ out, ground_range_diff_at_azimuth_fast Real.arcsin Real.arccos Real.sin Real.cos
        Real.pi 1 1 0 (Real.pi / 2) 0 0 1 = Except.ok out := by
  have hpi := Real.pi_pos
  refine ⟨(c4_azimuth_validation 1 1 0 0 0 1 0).1, ?_, ?_, ⟨by linarith, by linarith⟩, ?_⟩
  · exact (c4_azimuth_validation 1 1 0 0 0 1 0).1 (Or.inl le_rfl)
  · exact (c4_azimuth_validation 1 1 0 0 0 1 Real.pi).1 (Or.inr le_rfl)
  · exact (c4_azimuth_validation 1 1 0 0 0 1 (Real.pi / 2)).2 (by linarith) (by linarith)

omit [LinearOrderedField α] in
theorem map_fst_map_pair {β : Type} (sol : α → β) :
    ∀ tofs : List α, (tofs.map fun t => (t, sol t)).map Prod.fst = tofs
  | [] => rfl
  | t :: ts => by simp only [List.map_cons, map_fst_map_pair sol ts]

/-- The sample set assembled from the requested output times and the dense
solution: one pair per requested time in order, strictly increasing times,
and first entry `(0, initial state)` when the first requested time is 0 and
the dense solution starts at the initial state. -/
theorem trajectory_samples_props (sol : α → OrbitState α) (tofs : List α)
    (s0 : OrbitState α) (hchain : List.Chain' (· < ·) tofs)
    (hhead : tofs.head? = some 0) (hsol0 : sol 0 = s0) :
    ((tofs.map fun t => (t, sol t)).map Prod.fst = tofs) ∧
    List.Chain' (· < ·) ((tofs.map fun t => (t, sol t)).map Prod.fst) ∧
    (tofs.map fun t => (t, sol t)).head? = some (0, s0) := by
  have hmap := map_fst_map_pair sol tofs
  refine ⟨hmap, ?_, ?_⟩
  · rw [hmap]
    exact hchain
  · cases tofs with
    | nil => simp at hhead
    | cons t ts =>
      simp only [List.head?_cons, Option.some.injEq] at hhead
      simp [hhead, hsol0]

/-- Claim C9: the trajectory sample set returned by a completed propagation
is an ordered sequence of (time, state) pairs with strictly increasing
times, one per requested output time in the requested order, whose first
entry is `(0, initial state)`. -/
theorem c9_completed_samples (sol : α → OrbitState α) (steps tofs : List α)
    (ev : EventSpec α) (n : Nat) (s0 : OrbitState α)
    (hstat : (cowell sol steps tofs ev n).status = PropStatus.completed)
    (hchain : List.Chain' (· < ·) tofs)
    (hhead : tofs.head? = some 0)
    (hsol0 : sol 0 = s0) :
    ((cowell sol steps tofs ev n).samples.map Prod.fst = tofs) ∧
    List.Chain' (· < ·) ((cowell sol steps tofs ev n).samples.map Prod.fst) ∧
    (cowell sol steps tofs ev n).samples.head? = some (0, s0) := by
  rcases hfc : firstCrossing (fun t => ev.g t (sol t)) steps with _ | ab
  · simp only [cowell, hfc]
    exact trajectory_samples_props sol tofs s0 hchain hhead hsol0
  · rcases ab with ⟨a, b⟩
    cases hterm : ev.terminal
    · simp only [cowell, hfc, hterm, Bool.false_eq_true, if_false]
      exact trajectory_samples_props sol tofs s0 hchain hhead hsol0
    · rw [cowell] at hstat
      rw [hfc] at hstat
      simp only [hterm, if_true] at hstat
      exact absurd hstat (by simp)

/-- Witness for C9 at a concrete input over ℚ. -/
theorem c9_completed_samples_witness :
    ((cowell wSolQ [0, 1] [0, 1] ⟨fun _ _ => 1, true⟩ 0).status = PropStatus.completed ∧
      List.Chain' (· < ·) ([0, 1] : List ℚ) ∧
      ([0, 1] : List ℚ).head? = some 0 ∧ wSolQ 0 = ⟨⟨0, 0, 0⟩, ⟨1, 0, 0⟩⟩) ∧
    ((cowell wSolQ [0, 1] [0, 1] ⟨fun _ _ => 1, true⟩ 0).samples.map Prod.fst =
      ([0, 1] : List ℚ)) ∧
    (cowell wSolQ [0, 1] [0, 1] ⟨fun _ _ => 1, true⟩ 0).samples.head? =
      some (0, ⟨⟨0, 0, 0⟩, ⟨1, 0, 0⟩⟩) := by
  have hstat : (cowell wSolQ [0, 1] [0, 1]
      (⟨fun _ _ => 1, true⟩ : EventSpec ℚ) 0).status = PropStatus.completed := by
    norm_num [cowell, firstCrossing]
  have hchain : List.Chain' (· < ·) ([0, 1] : List ℚ) := by
    norm_num [List.chain'_cons, List.chain'_singleton]
  have hhead : ([0, 1] : List ℚ).head? = some 0 := rfl
  have hsol0 : wSolQ 0 = ⟨⟨0, 0, 0⟩, ⟨1, 0, 0⟩⟩ := rfl
  obtain ⟨m1, _, m3⟩ :=
    c9_completed_samples wSolQ [0, 1] [0, 1] ⟨fun _ _ => 1, true⟩ 0
      ⟨⟨0, 0, 0⟩, ⟨1, 0, 0⟩⟩ hstat hchain hhead hsol0
  exact ⟨⟨hstat, hchain, hhead, hsol0⟩, m1, m3⟩

/-- Claim C7: an event whose sign-change condition never occurs across the
accepted steps leaves the event record untriggered with its recorded time
equal to the final requested time. -/
theorem c7_non_triggering_event (sol : α → OrbitState α) (steps tofs : List α)
    (ev : EventSpec α) (n : Nat)
    (hchain : List.Chain' (fun x y => 0 < ev.g x (sol x) * ev.g y (sol y)) steps)
    (hne : tofs ≠ []) :
    (cowell sol steps tofs ev n).record.triggered = false ∧
    (cowell sol steps tofs ev n).record.lastT = tofs.getLast hne := by
  have hfc : firstCrossing (fun t => ev.g t (sol t)) steps = none :=
    firstCrossing_of_chain (fun t => ev.g t (sol t)) steps hchain
  simp only [cowell, hfc]
  exact ⟨trivial, getLastD_eq_getLast_of_ne_nil tofs hne 0⟩

/-- Witness for C7 at a concrete input over ℚ: a positive event function
never changes sign, so the record stays untriggered at the final requested
time. -/
theorem c7_non_triggering_event_witness :
    List.Chain' (fun x y => 0 <
        (⟨fun _ _ => 1, true⟩ : EventSpec ℚ).g x (wSolQ x) *
        (⟨fun _ _ => 1, true⟩ : EventSpec ℚ).g y (wSolQ y)) [0, 1] ∧
    (cowell wSolQ [0, 1] [0, 2] (⟨fun _ _ => 1, true⟩ : EventSpec ℚ) 0).record.triggered =
      false ∧
    (cowell wSolQ [0, 1] [0, 2] (⟨fun _ _ => 1, true⟩ : EventSpec ℚ) 0).record.lastT = 2 := by
  have hchain : List.Chain' (fun x y => 0 <
      (⟨fun _ _ => 1, true⟩ : EventSpec ℚ).g x (wSolQ x) *
      (⟨fun _ _ => 1, true⟩ : EventSpec ℚ).g y (wSolQ y)) [0, 1] := by
    norm_num [List.chain'_cons, List.chain'_singleton]
  have hne : ([0, 2] : List ℚ) ≠ [] := by simp
  obtain ⟨h1, h2⟩ :=
    c7_non_triggering_event wSolQ [0, 1] [0, 2] ⟨fun _ _ => 1, true⟩ 0 hchain hne
  refine ⟨hchain, h1, ?_⟩
  rw [h2]
  rfl

/-- Claim C3: if the density model raises a domain error at an altitude
reached during integration, the propagation with the model-based drag force
returns a failure carrying the partial trajectory collected before the
error, explicitly marked incomplete — not a silently truncated or
zero-acceleration result. -/
theorem c3_drag_domain_error_fails (sqrtF : α → α) (k R C_D A_over_m : α)
    (model : α → Except PropError α) (sol : α → OrbitState α)
    (pre post : List α) (tbad : α) (e : PropError)
    (hok : ∀ t ∈ pre, ∃ v,
      assembleRHSFallible sqrtF k
        (fun t2 s => atmospheric_drag_model sqrtF t2 s k R C_D A_over_m model)
        t (sol t) = Except.ok v)
    (hbad : model (rnorm sqrtF (sol tbad).r - R) = Except.error e) :
    propagateFallible
        (assembleRHSFallible sqrtF k
          (fun t2 s => atmospheric_drag_model sqrtF t2 s k R C_D A_over_m model))
        sol (pre ++ tbad :: post) =
      ⟨PropStatus.failed, pre.map fun t => (t, sol t), true⟩ := by
  have hrhs : assembleRHSFallible sqrtF k
      (fun t2 s => atmospheric_drag_model sqrtF t2 s k R C_D A_over_m model)
      tbad (sol tbad) = Except.error e := by
    simp only [assembleRHSFallible, atmospheric_drag_model, hbad]
  revert hok
  induction pre with
  | nil =>
    intro _
    simp only [List.nil_append, List.map_nil]
    simp only [propagateFallible, hrhs]
  | cons t ts ih =>
    intro hok
    obtain ⟨v, hv⟩ := hok t (List.mem_cons_self t ts)
    have ih' := ih fun t2 ht2 => hok t2 (List.mem_cons_of_mem t ht2)
    simp only [List.cons_append, propagateFallible, hv, List.append_eq, ih', List.map_cons]

/-- Witness for C3 at a concrete input over ℚ: the density model is valid
only at nonnegative altitude, the trajectory reaches altitude -1 at time 1,
and the propagation fails there with the sample at time 0 kept and the
result marked incomplete. -/
theorem c3_drag_domain_error_fails_witness :
    (∀ t ∈ ([0] : List ℚ), ∃ v,
      assembleRHSFallible id 1
        (fun t2 s => atmospheric_drag_model id t2 s 1 1 1 1 wDensityModel)
        t (wSolQdecay t) = Except.ok v) ∧
    wDensityModel (rnorm id (wSolQdecay 1).r - 1) = Except.error PropError.domain ∧
    propagateFallible
        (assembleRHSFallible id 1
          (fun t2 s => atmospheric_drag_model id t2 s 1 1 1 1 wDensityModel))
        wSolQdecay ([0] ++ 1 :: []) =
      ⟨PropStatus.failed, ([0] : List ℚ).map fun t => (t, wSolQdecay t), true⟩ := by
  have hok : ∀ t ∈ ([0] : List ℚ), ∃ v,
      assembleRHSFallible id 1
        (fun t2 s => atmospheric_drag_model id t2 s 1 1 1 1 wDensityModel)
        t (wSolQdecay t) = Except.ok v := by
    intro t ht
    rcases List.mem_singleton.mp ht with rfl
    refine ⟨⟨⟨0, 0, 0⟩, ⟨-1, 0, 0⟩⟩, ?_⟩
    norm_num [assembleRHSFallible, atmospheric_drag_model, wDensityModel, wSolQdecay,
      rnorm, normSq, dot, func_twobody, Vec3.smul_def, Vec3.add_def]
  have hbad : wDensityModel (rnorm id (wSolQdecay 1).r - 1) =
      Except.error PropError.domain := by
    norm_num [wDensityModel, wSolQdecay, rnorm, normSq, dot]
  exact ⟨hok, hbad,
    c3_drag_domain_error_fails id 1 1 1 1 wDensityModel wSolQdecay [0] [] 1
      PropError.domain hok hbad⟩

/-- Claim C1: when the terminal altitude-crosses-surface event's sign change
occurs between two accepted steps within the requested time-of-flight, the
propagator halts with status terminated-by-event at the crossing time
located by the bracketed root-find; the state there has radius equal to the
attractor radius within the root-find tolerance `L·(b-a)/2ⁿ` (for a
modulus-of-continuity bound `L` on the event function over the bracket);
and every requested output time after the crossing returns the same event
state repeated. -/
theorem c1_terminal_event_halts (sol : ℝ → OrbitState ℝ) (steps tofs : List ℝ)
    (R L a b : ℝ) (n : Nat)
    (hcross : firstCrossing (fun t => rnorm Real.sqrt (sol t).r - R) steps = some (a, b))
    (hab : a ≤ b)
    (hLip : ∀ x y : ℝ, a ≤ x → x ≤ b → a ≤ y → y ≤ b →
      |(rnorm Real.sqrt (sol x).r - R) - (rnorm Real.sqrt (sol y).r - R)| ≤ L * |x - y|) :
    (cowell sol steps tofs (LithobrakeEvent Real.sqrt R) n).status =
        PropStatus.terminatedByEvent ∧
    (cowell sol steps tofs (LithobrakeEvent Real.sqrt R) n).record.triggered = true ∧
    (cowell sol steps tofs (LithobrakeEvent Real.sqrt R) n).record.lastT =
      (bisect (fun t => rnorm Real.sqrt (sol t).r - R) n a b).2 ∧
    a ≤ (bisect (fun t => rnorm Real.sqrt (sol t).r - R) n a b).2 ∧
    (bisect (fun t => rnorm Real.sqrt (sol t).r - R) n a b).2 ≤ b ∧
    |rnorm Real.sqrt
        (sol ((bisect (fun t => rnorm Real.sqrt (sol t).r - R) n a b).2)).r - R| ≤
      L * ((b - a) / 2 ^ n) ∧
    ∀ p ∈ tofs.zip (cowell sol steps tofs (LithobrakeEvent Real.sqrt R) n).samples,
      (bisect (fun t => rnorm Real.sqrt (sol t).r - R) n a b).2 < p.1 →
      p.2 = ((bisect (fun t => rnorm Real.sqrt (sol t).r - R) n a b).2,
             sol ((bisect (fun t => rnorm Real.sqrt (sol t).r - R) n a b).2)) := by
  have hsign := firstCrossing_sign (fun t => rnorm Real.sqrt (sol t).r - R) steps a b hcross
  obtain ⟨h1, h2, h3, h4, h5⟩ :=
    bisect_spec (fun t => rnorm Real.sqrt (sol t).r - R) n a b hab hsign
  have htol : |rnorm Real.sqrt
      (sol ((bisect (fun t => rnorm Real.sqrt (sol t).r - R) n a b).2)).r - R| ≤
      L * ((b - a) / 2 ^ n) := by
    have habs := abs_le_abs_sub_of_mul_nonpos h5
    have hlip := hLip (bisect (fun t => rnorm Real.sqrt (sol t).r - R) n a b).1
      (bisect (fun t => rnorm Real.sqrt (sol t).r - R) n a b).2
      h1 (le_trans h2 h3) (le_trans h1 h2) h3
    have habs2 : |(bisect (fun t => rnorm Real.sqrt (sol t).r - R) n a b).1 -
        (bisect (fun t => rnorm Real.sqrt (sol t).r - R) n a b).2| = (b - a) / 2 ^ n := by
      rw [abs_sub_comm, abs_of_nonneg (sub_nonneg.mpr h2), h4]
    rw [habs2] at hlip
    exact le_trans habs hlip
  have hred : cowell sol steps tofs (LithobrakeEvent Real.sqrt R) n =
      { status := PropStatus.terminatedByEvent
        samples := tofs.map fun t =>
          if t ≤ (bisect (fun t2 => rnorm Real.sqrt (sol t2).r - R) n a b).2
          then (t, sol t)
          else ((bisect (fun t2 => rnorm Real.sqrt (sol t2).r - R) n a b).2,
                sol ((bisect (fun t2 => rnorm Real.sqrt (sol t2).r - R) n a b).2))
        record := ⟨true, (bisect (fun t2 => rnorm Real.sqrt (sol t2).r - R) n a b).2⟩ } := by
    simp only [cowell, LithobrakeEvent, hcross]
    rw [if_pos trivial]
  refine ⟨by rw [hred], by rw [hred], by rw [hred], le_trans h1 h2, h3, htol, ?_⟩
  intro p hp hpt
  rw [hred] at hp
  have hps := snd_eq_of_mem_zip_map
    (fun t =>
      if t ≤ (bisect (fun t2 => rnorm Real.sqrt (sol t2).r - R) n a b).2
      then (t, sol t)
      else ((bisect (fun t2 => rnorm Real.sqrt (sol t2).r - R) n a b).2,
            sol ((bisect (fun t2 => rnorm Real.sqrt (sol t2).r - R) n a b).2)))
    tofs p hp
  exact hps.trans (if_neg (not_le.mpr hpt))

/-- Witness for C1: a linearly decaying radius crosses the surface radius
1/2 between the accepted steps 0 and 1; the requested time 2 lies past the
crossing. -/
theorem c1_terminal_event_halts_witness :
    firstCrossing (fun t => rnorm Real.sqrt (wSolR t).r - (1 / 2 : ℝ)) [0, 1] =
      some (0, 1) ∧
    (0 : ℝ) ≤ 1 ∧
    (∀ x y : ℝ, 0 ≤ x → x ≤ 1 → 0 ≤ y → y ≤ 1 →
      |(rnorm Real.sqrt (wSolR x).r - 1 / 2) - (rnorm Real.sqrt (wSolR y).r - 1 / 2)| ≤
        1 * |x - y|) ∧
    (cowell wSolR [0, 1] [0, 2] (LithobrakeEvent Real.sqrt (1 / 2)) 0).status =
      PropStatus.terminatedByEvent := by
  have hval : rnorm Real.sqrt (wSolR 0).r - (1 / 2 : ℝ) = 1 / 2 ∧
      rnorm Real.sqrt (wSolR 1).r - (1 / 2 : ℝ) = -(1 / 2) := by
    constructor
    · norm_num [wSolR, rnorm, normSq, dot, Real.sqrt_one]
    · norm_num [wSolR, rnorm, normSq, dot, Real.sqrt_zero]
  have hc : (rnorm Real.sqrt (wSolR 0).r - (1 / 2 : ℝ)) *
      (rnorm Real.sqrt (wSolR 1).r - (1 / 2 : ℝ)) ≤ 0 := by
    rw [hval.1, hval.2]
    norm_num
  have hcross : firstCrossing (fun t => rnorm Real.sqrt (wSolR t).r - (1 / 2 : ℝ)) [0, 1] =
      some (0, 1) := by
    simp only [firstCrossing]
    rw [if_pos hc]
  have hsolnorm : ∀ x : ℝ, x ≤ 1 → rnorm Real.sqrt (wSolR x).r = 1 - x := by
    intro x hx
    have harg : (1 - x) * (1 - x) + (0 * 0 + 0 * 0) = (1 - x) * (1 - x) := by ring
    simp only [wSolR, rnorm, normSq, dot]
    rw [show (1 - x) * (1 - x) + 0 * 0 + 0 * 0 = (1 - x) * (1 - x) by ring,
      Real.sqrt_mul_self (by linarith)]
  have hLip : ∀ x y : ℝ, 0 ≤ x → x ≤ 1 → 0 ≤ y → y ≤ 1 →
      |(rnorm Real.sqrt (wSolR x).r - 1 / 2) - (rnorm Real.sqrt (wSolR y).r - 1 / 2)| ≤
        1 * |x - y| := by
    intro x y hx1 hx2 hy1 hy2
    rw [hsolnorm x hx2, hsolnorm y hy2, one_mul,
      show (1 - x - 1 / 2) - (1 - y - 1 / 2) = y - x by ring, abs_sub_comm]
  exact ⟨hcross, by norm_num, hLip,
    (c1_terminal_event_halts wSolR [0, 1] [0, 2] (1 / 2) 1 0 1 0 hcross (by norm_num)
      hLip).1⟩

/-- Claim C8: for fixed altitude, center angle and attractor radius, the
min/max ground-range computation is monotone in the field-of-view angle: a
larger field of view yields a max ground range at least as large and a min
ground range at least as small (the ground-range interval grows). -/
theorem c8_ground_range_monotone (h eta_fov1 eta_fov2 eta_center R : ℝ)
    (hR : 0 < R) (hh : 0 ≤ h) (hf1 : 0 ≤ eta_fov1) (hf12 : eta_fov1 ≤ eta_fov2)
    (hlo : -(Real.pi / 2) ≤ eta_center - eta_fov2 / 2)
    (hhi : eta_center + eta_fov2 / 2 ≤ Real.pi / 2)
    (hub : (R + h) / R * Real.sin (eta_center + eta_fov2 / 2) ≤ 1)
    (hlb : -1 ≤ (R + h) / R * Real.sin (eta_center - eta_fov2 / 2)) :
    (min_and_max_ground_range_fast Real.arcsin Real.sin h eta_fov1 eta_center R).2 ≤
      (min_and_max_ground_range_fast Real.arcsin Real.sin h eta_fov2 eta_center R).2 ∧
    (min_and_max_ground_range_fast Real.arcsin Real.sin h eta_fov2 eta_center R).1 ≤
      (min_and_max_ground_range_fast Real.arcsin Real.sin h eta_fov1 eta_center R).1 := by
  have hpi := Real.pi_pos
  have hc : 1 ≤ (R + h) / R := by
    rw [le_div_iff hR]
    linarith
  have hc0 : (0 : ℝ) < (R + h) / R := lt_of_lt_of_le one_pos hc
  have hsm : Real.sin (eta_center - eta_fov2 / 2) ≤ Real.sin (eta_center + eta_fov1 / 2) :=
    Real.sin_le_sin_of_le_of_le_pi_div_two hlo (by linarith) (by linarith)
  have hca1 : -1 ≤ (R + h) / R * Real.sin (eta_center + eta_fov1 / 2) := by
    have := mul_le_mul_of_nonneg_left hsm hc0.le
    linarith
  have hmax := arcsin_stretch_mono (c := (R + h) / R) (by linarith) (by linarith) hhi hc
    hub hca1
  have hsm2 : Real.sin (eta_center - eta_fov1 / 2) ≤ Real.sin (eta_center + eta_fov2 / 2) :=
    Real.sin_le_sin_of_le_of_le_pi_div_two (by linarith) hhi (by linarith)
  have hcb2 : (R + h) / R * Real.sin (eta_center - eta_fov1 / 2) ≤ 1 := by
    have := mul_le_mul_of_nonneg_left hsm2 hc0.le
    linarith
  have hmin := arcsin_stretch_mono (c := (R + h) / R) hlo (by linarith) (by linarith) hc
    hcb2 hlb
  constructor
  · simp only [min_and_max_ground_range_fast]
    exact hmax
  · simp only [min_and_max_ground_range_fast]
    exact hmin

/-- Witness for C8 at a concrete input: attractor radius 1, zero altitude,
boresight at nadir, fields of view 0 and π/2. -/
theorem c8_ground_range_monotone_witness :
    ((0 : ℝ) < 1 ∧ (0 : ℝ) ≤ 0 ∧ (0 : ℝ) ≤ Real.pi / 2 ∧
      -(Real.pi / 2) ≤ (0 : ℝ) - Real.pi / 2 / 2 ∧ (0 : ℝ) + Real.pi / 2 / 2 ≤ Real.pi / 2 ∧
      ((1 : ℝ) + 0) / 1 * Real.sin (0 + Real.pi / 2 / 2) ≤ 1 ∧
      (-1 : ℝ) ≤ (1 + 0) / 1 * Real.sin (0 - Real.pi / 2 / 2)) ∧
    (min_and_max_ground_range_fast Real.arcsin Real.sin 0 0 0 1).2 ≤
      (min_and_max_ground_range_fast Real.arcsin Real.sin 0 (Real.pi / 2) 0 1).2 ∧
    (min_and_max_ground_range_fast Real.arcsin Real.sin 0 (Real.pi / 2) 0 1).1 ≤
      (min_and_max_ground_range_fast Real.arcsin Real.sin 0 0 0 1).1 := by
  have hpi := Real.pi_pos
  have hub : ((1 : ℝ) + 0) / 1 * Real.sin (0 + Real.pi / 2 / 2) ≤ 1 := by
    have h1 := Real.sin_le_one ((0 : ℝ) + Real.pi / 2 / 2)
    have h2 : ((1 : ℝ) + 0) / 1 * Real.sin (0 + Real.pi / 2 / 2) =
        Real.sin ((0 : ℝ) + Real.pi / 2 / 2) := by norm_num
    rw [h2]
    exact h1
  have hlb : (-1 : ℝ) ≤ (1 + 0) / 1 * Real.sin (0 - Real.pi / 2 / 2) := by
    have h1 := Real.neg_one_le_sin ((0 : ℝ) - Real.pi / 2 / 2)
    have h2 : ((1 : ℝ) + 0) / 1 * Real.sin (0 - Real.pi / 2 / 2) =
        Real.sin ((0 : ℝ) - Real.pi / 2 / 2) := by norm_num
    rw [h2]
    exact h1
  refine ⟨⟨by norm_num, le_refl 0, by linarith, by linarith, by linarith, hub, hlb⟩, ?_⟩
  exact c8_ground_range_monotone 0 0 (Real.pi / 2) 0 1 (by norm_num) le_rfl le_rfl
    (by linarith) (by linarith) (by linarith) hub hlb

end Poliastro
